import Mathlib

set_option autoImplicit false

/-!
Verification of the bitonic sorting-network experiment (`src/bitonic/src/main.rs`).

The Rust program models fixed-topology compare-and-exchange networks over
small vectors of tagged lanes and exhaustively verifies, for every enable
mask and both addressing modes, that a network sorts correctly and
preserves tie-break order.  This file is a shallow embedding of that
program: `u64` values become `Nat` (all quantities involved are far below
2^64, so wrap-around never occurs in the source), `Vec<Lane>` becomes
`List Lane`, and the mutable loops become folds.  Rust's panicking index
operator is modelled by `List.getD` / `List.set`; every theorem that
depends on an index supplies the in-range hypothesis under which the two
agree.
-/

/-- Each lane has a key (for sorting) and metadata (for verification);
mirrors `struct Lane` in the source. -/
structure Lane where
  key : Nat
  meta : Nat
deriving DecidableEq, Repr

/-- Default lane used to model Rust's indexing (theorems always supply
in-range hypotheses, so the default is never observed). -/
def Lane.dflt : Lane := { key := 0, meta := 0 }

/-- `const PENALTY:u64 = 256`. -/
def PENALTY : Nat := 256

/-- Options for initializing key-values, `enum LaneArrayType`. -/
inductive LaneArrayType where
  | Simple (mask : Nat)
  | Hidden (mask : Nat)

/-- `Lane::new`: create a key-value pair based on an index and mask. -/
def Lane.new (typ : LaneArrayType) (idx : Nat) : Lane :=
  let chk : Nat := 1 <<< idx
  match typ with
  | .Simple mask =>
      let pen : Nat := if mask &&& chk > 0 then PENALTY else 0
      { key := max idx pen, meta := max idx pen }
  | .Hidden mask =>
      let pen : Nat := if mask &&& chk > 0 then PENALTY else 0
      { key := pen, meta := max idx pen }

/-- An array of lane values (`struct LaneArray`). -/
def LaneArray := List Lane

/-- `LaneArray::new`: a vector of Lanes of the designated size and type. -/
def LaneArray.new (len : Nat) (typ : LaneArrayType) : List Lane :=
  (List.range len).map (fun n => Lane.new typ n)

/-- The loop of `is_sorted_key` / `is_sorted_meta`, with the running
`prev` value made explicit and the projection passed as `f`. -/
def sortedFrom (f : Lane → Nat) (prev : Nat) : List Lane → Bool
  | [] => true
  | lane :: rest => if f lane < prev then false else sortedFrom f (f lane) rest

/-- `LaneArray::is_sorted_key`: all lanes sorted ascending by key
(`prev` starts at 0 as in the source). -/
def LaneArray.is_sorted_key (l : List Lane) : Bool :=
  sortedFrom Lane.key 0 l

/-- `LaneArray::is_sorted_meta`: all lanes sorted ascending by metadata. -/
def LaneArray.is_sorted_meta (l : List Lane) : Bool :=
  sortedFrom Lane.meta 0 l

/-- `fn sw`: a lane-swap operation is a pair of indices (`LaneSwap`). -/
def sw (a b : Nat) : Nat × Nat := (a, b)

/-- Body of the loop in `LaneArray::swap`: one compare-exchange operator
applied to the accumulated `result`, reading only the snapshot `v`. -/
def swapStep (v : List Lane) (res : List Lane) (op : Nat × Nat) : List Lane :=
  if (v.getD op.1 Lane.dflt).key ≤ (v.getD op.2 Lane.dflt).key then
    (res.set op.1 (v.getD op.1 Lane.dflt)).set op.2 (v.getD op.2 Lane.dflt)
  else
    (res.set op.1 (v.getD op.2 Lane.dflt)).set op.2 (v.getD op.1 Lane.dflt)

/-- `LaneArray::swap`: apply a series of lane-swap operations; all reads
go to the input vector `v` (the Rust `self`), writes to the clone. -/
def LaneArray.swap (v : List Lane) (ops : List (Nat × Nat)) : List Lane :=
  ops.foldl (swapStep v) v

/-- Body of the loop in `LaneArray::shift`: information-deleting analogue
of `swapStep`. -/
def shiftStep (v : List Lane) (res : List Lane) (op : Nat × Nat) : List Lane :=
  if (v.getD op.1 Lane.dflt).key < PENALTY then
    (res.set op.1 (v.getD op.1 Lane.dflt)).set op.2 (v.getD op.2 Lane.dflt)
  else
    (res.set op.1 (v.getD op.2 Lane.dflt)).set op.2 { key := PENALTY, meta := PENALTY }

/-- `LaneArray::shift`: shifts up by replacing invalid inputs with a
constant placeholder. -/
def LaneArray.shift (v : List Lane) (ops : List (Nat × Nat)) : List Lane :=
  ops.foldl (shiftStep v) v

/-- Outcome of `test_sort`'s summary report (the three println branches). -/
inductive SortResult where
  | SortingError
  | OrderNotPreserved
  | AllPassed
deriving DecidableEq, Repr

/-- One verification trial of `test_sort`'s inner loop: whether the key
predicate and the meta predicate fail on the sorted output. -/
def trialErrs (len : Nat) (sortfn : List Lane → List Lane)
    (typ : LaneArrayType) : Bool × Bool :=
  let x := LaneArray.new len typ
  let y := sortfn x
  (!(LaneArray.is_sorted_key y), !(LaneArray.is_sorted_meta y))

/-- Body of `test_sort`'s inner `for typ in types` loop: build the
vector, sort it, and bump the two error counters independently. -/
def typStep (len : Nat) (sortfn : List Lane → List Lane)
    (c : Nat × Nat) (typ : LaneArrayType) : Nat × Nat :=
  let x := LaneArray.new len typ
  let y := sortfn x
  (if LaneArray.is_sorted_key y then c.1 else c.1 + 1,
   if LaneArray.is_sorted_meta y then c.2 else c.2 + 1)

/-- Body of `test_sort`'s outer `for mask in 0..max_mask` loop: run both
addressing modes for one mask. -/
def maskStep (len : Nat) (sortfn : List Lane → List Lane)
    (c : Nat × Nat) (mask : Nat) : Nat × Nat :=
  [LaneArrayType.Simple mask, LaneArrayType.Hidden mask].foldl
    (typStep len sortfn) c

/-- The error counters of `test_sort` (`err_key`, `err_meta`), as the
fold that the nested `for` loops perform. -/
def errCounts (len : Nat) (sortfn : List Lane → List Lane) : Nat × Nat :=
  (List.range (2 ^ len)).foldl (maskStep len sortfn) (0, 0)

/-- `test_sort`: classify a sorting function from the error tallies
(`1u64 << len` masks, Simple and Hidden modes, then the three-way
report). -/
def test_sort (len : Nat) (sortfn : List Lane → List Lane) : SortResult :=
  let c := errCounts len sortfn
  if c.1 > 0 then .SortingError
  else if c.2 > 0 then .OrderNotPreserved
  else .AllPassed

/-- The flat list of all trials `test_sort` evaluates, in evaluation
order, with each trial's pair of predicate failures. -/
def trials (len : Nat) (sortfn : List Lane → List Lane) : List (Bool × Bool) :=
  (List.range (2 ^ len)).flatMap (fun mask =>
    [LaneArrayType.Simple mask, LaneArrayType.Hidden mask].map
      (trialErrs len sortfn))

/-- `fn bitonic4a`: bitonic network, original formulation. -/
def bitonic4a (p0 : List Lane) : List Lane :=
  let p1 := LaneArray.swap p0 [sw 0 1, sw 3 2]
  let p2 := LaneArray.swap p1 [sw 0 2, sw 1 3]
  let p3 := LaneArray.swap p2 [sw 0 1, sw 2 3]
  p3

/-- `fn bitonic4b`: bitonic network, downward swaps only. -/
def bitonic4b (p0 : List Lane) : List Lane :=
  let p1 := LaneArray.swap p0 [sw 0 1, sw 2 3]
  let p2 := LaneArray.swap p1 [sw 0 3, sw 1 2]
  let p3 := LaneArray.swap p2 [sw 0 1, sw 2 3]
  p3

/-- `fn bubble8`: bubble sort built from shifts. -/
def bubble8 (p0 : List Lane) : List Lane :=
  let p1 := LaneArray.shift p0 [sw 0 1]
  let p2 := LaneArray.shift p1 [sw 1 2]
  let p3 := LaneArray.shift p2 [sw 0 1, sw 2 3]
  let p4 := LaneArray.shift p3 [sw 1 2, sw 3 4]
  let p5 := LaneArray.shift p4 [sw 0 1, sw 2 3, sw 4 5]
  let p6 := LaneArray.shift p5 [sw 1 2, sw 3 4, sw 5 6]
  let p7 := LaneArray.shift p6 [sw 0 1, sw 2 3, sw 4 5, sw 6 7]
  let p8 := LaneArray.shift p7 [sw 1 2, sw 3 4, sw 5 6]
  let p9 := LaneArray.shift p8 [sw 0 1, sw 2 3, sw 4 5]
  let p10 := LaneArray.shift p9 [sw 1 2, sw 3 4]
  let p11 := LaneArray.shift p10 [sw 0 1, sw 2 3]
  let p12 := LaneArray.shift p11 [sw 1 2]
  let p13 := LaneArray.shift p12 [sw 0 1]
  p13

/-- `fn transpose8s`: information-deleting analogue of the odd-even
transpose sort. -/
def transpose8s (p0 : List Lane) : List Lane :=
  let p1 := LaneArray.shift p0 [sw 0 1, sw 2 3, sw 4 5, sw 6 7]
  let p2 := LaneArray.shift p1 [sw 1 2, sw 3 4, sw 5 6]
  let p3 := LaneArray.shift p2 [sw 0 1, sw 2 3, sw 4 5, sw 6 7]
  let p4 := LaneArray.shift p3 [sw 1 2, sw 3 4, sw 5 6]
  let p5 := LaneArray.shift p4 [sw 0 1, sw 2 3, sw 4 5, sw 6 7]
  let p6 := LaneArray.shift p5 [sw 1 2, sw 3 4, sw 5 6]
  let p7 := LaneArray.shift p6 [sw 0 1, sw 2 3, sw 4 5, sw 6 7]
  let p8 := LaneArray.shift p7 [sw 1 2, sw 3 4, sw 5 6]
  p8

/-- The penalty contribution of mask bit `i`, as a `testBit` view of the
source's `mask & (1 << idx) > 0` check. -/
def penOf (mask i : Nat) : Nat :=
  if mask.testBit i then PENALTY else 0

/-- Number of disabled lanes among positions `[0, 8)` of a mask
(popcount restricted to the 8 lanes). -/
def disabledCount (mask : Nat) : Nat :=
  (List.range 8).countP (fun i => mask.testBit i)

/-- Number of valid (non-penalized) lanes of a vector. -/
def validCount (l : List Lane) : Nat :=
  l.countP (fun ln => decide (ln.key < PENALTY))

/-- Two compare-exchange operators touch disjoint lane indices. -/
def opsDisjoint (p q : Nat × Nat) : Prop :=
  p.1 ≠ q.1 ∧ p.1 ≠ q.2 ∧ p.2 ≠ q.1 ∧ p.2 ≠ q.2

instance : DecidableRel opsDisjoint := fun p q => by
  unfold opsDisjoint; infer_instance

/-- The compaction property of C6 for one network, mask, and mode:
exactly `8 - disabledCount mask` valid lanes, all at the lowest indices,
carrying the enabled lanes' indices (their `meta` tags) in their
original relative order. -/
def compactSpec (net : List Lane → List Lane) (mask : Nat)
    (typ : LaneArrayType) : Prop :=
  let y := net (LaneArray.new 8 typ)
  let k := 8 - disabledCount mask
  validCount y = k ∧
  (y.take k).all (fun ln => decide (ln.key < PENALTY)) = true ∧
  (y.take k).map Lane.meta = (List.range 8).filter (fun i => !(mask.testBit i))

/-! ### Helper lemmas about `List.set` / `List.getD` -/

lemma getD_set_self {α : Type} (l : List α) (i : Nat) (x d : α)
    (h : i < l.length) : (l.set i x).getD i d = x := by
  rw [List.getD_eq_getElem?_getD, List.getElem?_set_self (by simpa using h)]
  rfl

lemma getD_set_ne {α : Type} (l : List α) {i j : Nat} (x d : α)
    (h : i ≠ j) : (l.set i x).getD j d = l.getD j d := by
  rw [List.getD_eq_getElem?_getD, List.getElem?_set_ne h,
    ← List.getD_eq_getElem?_getD]

lemma set_getD_self {α : Type} (l : List α) (i : Nat) (d : α) :
    l.set i (l.getD i d) = l := by
  induction l generalizing i with
  | nil => rfl
  | cons x l ih =>
    cases i with
    | zero => rfl
    | succ i => simpa [List.set, List.getD] using ih i

lemma getD_eq_getElem {α : Type} (l : List α) (i : Nat) (d : α)
    (h : i < l.length) : l.getD i d = l[i] := by
  rw [List.getD_eq_getElem?_getD, List.getElem?_eq_getElem h]
  rfl

/-- Commuting two pairs of `set` operations at pairwise distinct
indices. -/
lemma set4_comm {α : Type} (z : List α) {p1 p2 q1 q2 : Nat} (x y a b : α)
    (h11 : p1 ≠ q1) (h12 : p1 ≠ q2) (h21 : p2 ≠ q1) (h22 : p2 ≠ q2) :
    (((z.set p1 x).set p2 y).set q1 a).set q2 b
      = (((z.set q1 a).set q2 b).set p1 x).set p2 y := by
  rw [List.set_comm y a _ h21, List.set_comm x a _ h11,
    List.set_comm y b _ h22, List.set_comm x b _ h12]

/-! ### Lane construction lemmas -/

lemma and_shiftLeft_pos (mask i : Nat) :
    0 < mask &&& (1 <<< i) ↔ mask.testBit i = true := by
  rw [Nat.shiftLeft_eq, one_mul, Nat.and_two_pow]
  cases h : mask.testBit i <;> simp [h, Nat.pos_pow_of_pos]

lemma Lane.new_Simple (mask i : Nat) :
    Lane.new (.Simple mask) i
      = { key := max i (penOf mask i), meta := max i (penOf mask i) } := by
  by_cases h : mask.testBit i
  · have hp : 0 < mask &&& (1 <<< i) := (and_shiftLeft_pos mask i).mpr h
    simp [Lane.new, penOf, h, hp]
  · have hp : ¬ 0 < mask &&& (1 <<< i) :=
      fun hx => h ((and_shiftLeft_pos mask i).mp hx)
    simp [Lane.new, penOf, h, hp]

lemma Lane.new_Hidden (mask i : Nat) :
    Lane.new (.Hidden mask) i
      = { key := penOf mask i, meta := max i (penOf mask i) } := by
  by_cases h : mask.testBit i
  · have hp : 0 < mask &&& (1 <<< i) := (and_shiftLeft_pos mask i).mpr h
    simp [Lane.new, penOf, h, hp]
  · have hp : ¬ 0 < mask &&& (1 <<< i) :=
      fun hx => h ((and_shiftLeft_pos mask i).mp hx)
    simp [Lane.new, penOf, h, hp]

lemma LaneArray.new_getD (len : Nat) (typ : LaneArrayType) (i : Nat)
    (h : i < len) : (LaneArray.new len typ).getD i Lane.dflt = Lane.new typ i := by
  unfold LaneArray.new
  rw [List.getD_eq_getElem?_getD, List.getElem?_map, List.getElem?_range h]
  rfl

lemma penOf_mod (len mask i : Nat) (h : i < len) :
    penOf (mask % 2 ^ len) i = penOf mask i := by
  unfold penOf
  rw [Nat.testBit_mod_two_pow]
  simp [h]

lemma new_Simple_mod (len mask : Nat) :
    LaneArray.new len (.Simple mask) = LaneArray.new len (.Simple (mask % 2 ^ len)) := by
  unfold LaneArray.new
  apply List.map_congr_left
  intro n hn
  rw [Lane.new_Simple, Lane.new_Simple, penOf_mod len mask n (List.mem_range.mp hn)]

lemma new_Hidden_mod (len mask : Nat) :
    LaneArray.new len (.Hidden mask) = LaneArray.new len (.Hidden (mask % 2 ^ len)) := by
  unfold LaneArray.new
  apply List.map_congr_left
  intro n hn
  rw [Lane.new_Hidden, Lane.new_Hidden, penOf_mod len mask n (List.mem_range.mp hn)]

/-- C4: lane construction is total and pure (it is a Lean function); in
Simple mode lane `i` has `key = meta = max i (penalty if mask bit i else 0)`,
in Hidden mode `key = penalty-or-zero` and `meta = max i (penalty-or-zero)`;
and mask bits at positions `≥ N` have no effect on the constructed vector
(the vector equals the one built from `mask % 2 ^ N`). -/
theorem claim_C4_lane_construction (len mask i : Nat) (h : i < len) :
    (LaneArray.new len (.Simple mask)).getD i Lane.dflt
        = { key := max i (penOf mask i), meta := max i (penOf mask i) } ∧
    (LaneArray.new len (.Hidden mask)).getD i Lane.dflt
        = { key := penOf mask i, meta := max i (penOf mask i) } ∧
    LaneArray.new len (.Simple mask) = LaneArray.new len (.Simple (mask % 2 ^ len)) ∧
    LaneArray.new len (.Hidden mask) = LaneArray.new len (.Hidden (mask % 2 ^ len)) := by
  refine ⟨?_, ?_, new_Simple_mod len mask, new_Hidden_mod len mask⟩
  · rw [LaneArray.new_getD len _ i h, Lane.new_Simple]
  · rw [LaneArray.new_getD len _ i h, Lane.new_Hidden]

/-- Witness for C4 at `len = 4`, `mask = 21` (bit 4 is outside the lane
range), `i = 2`. -/
theorem claim_C4_witness :
    (LaneArray.new 4 (.Simple 21)).getD 2 Lane.dflt
        = { key := max 2 (penOf 21 2), meta := max 2 (penOf 21 2) } ∧
    (LaneArray.new 4 (.Hidden 21)).getD 2 Lane.dflt
        = { key := penOf 21 2, meta := max 2 (penOf 21 2) } ∧
    LaneArray.new 4 (.Simple 21) = LaneArray.new 4 (.Simple (21 % 2 ^ 4)) ∧
    LaneArray.new 4 (.Hidden 21) = LaneArray.new 4 (.Hidden (21 % 2 ^ 4)) :=
  claim_C4_lane_construction 4 21 2 (by decide)

/-- C2: one swap operator `(a, b)` with both indices in range is the
identity on lanes `a`, `b` when `v[a].key ≤ v[b].key` (ties keep the
existing order), and otherwise exchanges the two lanes whole (key and
meta together). -/
theorem claim_C2_swap_semantics (v : List Lane) (a b : Nat)
    (ha : a < v.length) (hb : b < v.length) :
    (LaneArray.swap v [(a, b)]).getD a Lane.dflt
      = (if (v.getD a Lane.dflt).key ≤ (v.getD b Lane.dflt).key
         then v.getD a Lane.dflt else v.getD b Lane.dflt) ∧
    (LaneArray.swap v [(a, b)]).getD b Lane.dflt
      = (if (v.getD a Lane.dflt).key ≤ (v.getD b Lane.dflt).key
         then v.getD b Lane.dflt else v.getD a Lane.dflt) := by
  have hfold : LaneArray.swap v [(a, b)] = swapStep v v (a, b) := rfl
  by_cases hle : (v.getD a Lane.dflt).key ≤ (v.getD b Lane.dflt).key
  · rw [hfold]
    unfold swapStep
    rw [if_pos hle, if_pos hle, if_pos hle]
    refine ⟨?_, ?_⟩
    · by_cases hab : a = b
      · subst hab
        rw [List.set_set, getD_set_self v a _ _ ha]
      · rw [getD_set_ne _ _ _ (fun hx => hab hx.symm), getD_set_self v a _ _ ha]
    · exact getD_set_self _ b _ _ (by simpa [List.length_set] using hb)
  · have hab : a ≠ b := by
      intro hx
      exact hle (hx ▸ Nat.le_refl _)
    rw [hfold]
    unfold swapStep
    rw [if_neg hle, if_neg hle, if_neg hle]
    refine ⟨?_, ?_⟩
    · rw [getD_set_ne _ _ _ (fun hx => hab hx.symm), getD_set_self v a _ _ ha]
    · exact getD_set_self _ b _ _ (by simpa [List.length_set] using hb)

/-- Concrete two-lane vector used by the C2 witness. -/
def wlanes : List Lane := [{ key := 5, meta := 0 }, { key := 3, meta := 1 }]

/-- Witness for C2 at `v = [(5,0),(3,1)]`, operator `(0,1)`. -/
theorem claim_C2_witness :
    (LaneArray.swap wlanes [(0, 1)]).getD 0 Lane.dflt
      = (if (wlanes.getD 0 Lane.dflt).key ≤ (wlanes.getD 1 Lane.dflt).key
         then wlanes.getD 0 Lane.dflt else wlanes.getD 1 Lane.dflt) ∧
    (LaneArray.swap wlanes [(0, 1)]).getD 1 Lane.dflt
      = (if (wlanes.getD 0 Lane.dflt).key ≤ (wlanes.getD 1 Lane.dflt).key
         then wlanes.getD 1 Lane.dflt else wlanes.getD 0 Lane.dflt) :=
  claim_C2_swap_semantics wlanes 0 1 (by decide) (by decide)

/-- C3: one shift operator `(a, b)` (an operator pair has distinct
indices, spec section 3) with both indices in range keeps both lanes
unchanged when lane `a` is valid (`v[a].key < PENALTY`); otherwise lane
`a` receives `v[b]` and lane `b` becomes the canonical placeholder
`key = meta = PENALTY`, discarding lane `b`'s original content. -/
theorem claim_C3_shift_semantics (v : List Lane) (a b : Nat)
    (ha : a < v.length) (hb : b < v.length) (hab : a ≠ b) :
    (LaneArray.shift v [(a, b)]).getD a Lane.dflt
      = (if (v.getD a Lane.dflt).key < PENALTY
         then v.getD a Lane.dflt else v.getD b Lane.dflt) ∧
    (LaneArray.shift v [(a, b)]).getD b Lane.dflt
      = (if (v.getD a Lane.dflt).key < PENALTY
         then v.getD b Lane.dflt else { key := PENALTY, meta := PENALTY }) := by
  have hfold : LaneArray.shift v [(a, b)] = shiftStep v v (a, b) := rfl
  by_cases hlt : (v.getD a Lane.dflt).key < PENALTY
  · rw [hfold]
    unfold shiftStep
    rw [if_pos hlt, if_pos hlt, if_pos hlt]
    refine ⟨?_, ?_⟩
    · rw [getD_set_ne _ _ _ (fun hx => hab hx.symm), getD_set_self v a _ _ ha]
    · exact getD_set_self _ b _ _ (by simpa [List.length_set] using hb)
  · rw [hfold]
    unfold shiftStep
    rw [if_neg hlt, if_neg hlt, if_neg hlt]
    refine ⟨?_, ?_⟩
    · rw [getD_set_ne _ _ _ (fun hx => hab hx.symm), getD_set_self v a _ _ ha]
    · exact getD_set_self _ b _ _ (by simpa [List.length_set] using hb)

/-- Concrete two-lane vector used by the C3 witness: lane 0 is
penalized, lane 1 is valid. -/
def wshift : List Lane := [{ key := 300, meta := 7 }, { key := 2, meta := 1 }]

/-- Witness for C3 at `v = [(300,7),(2,1)]`, operator `(0,1)`. -/
theorem claim_C3_witness :
    (LaneArray.shift wshift [(0, 1)]).getD 0 Lane.dflt
      = (if (wshift.getD 0 Lane.dflt).key < PENALTY
         then wshift.getD 0 Lane.dflt else wshift.getD 1 Lane.dflt) ∧
    (LaneArray.shift wshift [(0, 1)]).getD 1 Lane.dflt
      = (if (wshift.getD 0 Lane.dflt).key < PENALTY
         then wshift.getD 1 Lane.dflt else { key := PENALTY, meta := PENALTY }) :=
  claim_C3_shift_semantics wshift 0 1 (by decide) (by decide) (by decide)

/-- Counterexample to C5 as stated: applying the verifier to the N = 4
bitonic networks does not yield the "all tests passed" classification;
both are classified "order not preserved" (the Hidden mode reveals
inconsistent tie-breaks). -/
theorem claim_C5_counterexample :
    test_sort 4 bitonic4a ≠ .AllPassed ∧ test_sort 4 bitonic4b ≠ .AllPassed := by
  decide

/-- C5 (amended): on the all-enabled Simple input the N = 4 bitonic
networks produce output keys `[0, 1, 2, 3]` in lane order, but the
verifier classifies both `bitonic4a` and `bitonic4b` as
`OrderNotPreserved`, not `AllPassed`. -/
theorem claim_C5_amended :
    (bitonic4a (LaneArray.new 4 (.Simple 0))).map Lane.key = [0, 1, 2, 3] ∧
    (bitonic4b (LaneArray.new 4 (.Simple 0))).map Lane.key = [0, 1, 2, 3] ∧
    test_sort 4 bitonic4a = .OrderNotPreserved ∧
    test_sort 4 bitonic4b = .OrderNotPreserved := by
  decide

set_option maxRecDepth 4096

instance compactSpec.dec (net : List Lane → List Lane) (mask : Nat)
    (typ : LaneArrayType) : Decidable (compactSpec net mask typ) := by
  unfold compactSpec
  infer_instance

/-- C6: for the shift-based N = 8 networks and every mask with exactly 3
disabled bits among positions `[0, 8)`, in both addressing modes, the
output has exactly `8 - popcount = 5` valid lanes (`key < PENALTY`), they
occupy the lowest indices, and their `meta` tags list the enabled lanes'
original positions in increasing (original relative) order. -/
theorem claim_C6_compaction (mask : Nat) (h : mask < 2 ^ 8)
    (h3 : disabledCount mask = 3) :
    8 - disabledCount mask = 5 ∧
    compactSpec transpose8s mask (.Simple mask) ∧
    compactSpec transpose8s mask (.Hidden mask) ∧
    compactSpec bubble8 mask (.Simple mask) ∧
    compactSpec bubble8 mask (.Hidden mask) := by
  have H : ∀ m, m < 2 ^ 8 → (disabledCount m = 3 →
      8 - disabledCount m = 5 ∧
      compactSpec transpose8s m (.Simple m) ∧
      compactSpec transpose8s m (.Hidden m) ∧
      compactSpec bubble8 m (.Simple m) ∧
      compactSpec bubble8 m (.Hidden m)) := by decide
  exact H mask h h3

/-- Witness for C6 at `mask = 7` (lanes 0, 1, 2 disabled). -/
theorem claim_C6_witness :
    8 - disabledCount 7 = 5 ∧
    compactSpec transpose8s 7 (.Simple 7) ∧
    compactSpec transpose8s 7 (.Hidden 7) ∧
    compactSpec bubble8 7 (.Simple 7) ∧
    compactSpec bubble8 7 (.Hidden 7) :=
  claim_C6_compaction 7 (by decide) (by decide)

/-! ### Frame lemmas -/

lemma swapStep_length (v res : List Lane) (op : Nat × Nat) :
    (swapStep v res op).length = res.length := by
  unfold swapStep
  split <;> simp [List.length_set]

lemma shiftStep_length (v res : List Lane) (op : Nat × Nat) :
    (shiftStep v res op).length = res.length := by
  unfold shiftStep
  split <;> simp [List.length_set]

lemma foldl_swapStep_length (v : List Lane) :
    ∀ (ops : List (Nat × Nat)) (res : List Lane),
      (ops.foldl (swapStep v) res).length = res.length := by
  intro ops
  induction ops with
  | nil => intro res; rfl
  | cons op ops ih => intro res; rw [List.foldl_cons, ih, swapStep_length]

lemma foldl_shiftStep_length (v : List Lane) :
    ∀ (ops : List (Nat × Nat)) (res : List Lane),
      (ops.foldl (shiftStep v) res).length = res.length := by
  intro ops
  induction ops with
  | nil => intro res; rfl
  | cons op ops ih => intro res; rw [List.foldl_cons, ih, shiftStep_length]

lemma swapStep_getD_untouched (v res : List Lane) (op : Nat × Nat) (i : Nat)
    (h1 : i ≠ op.1) (h2 : i ≠ op.2) :
    (swapStep v res op).getD i Lane.dflt = res.getD i Lane.dflt := by
  unfold swapStep
  split <;> rw [getD_set_ne _ _ _ (Ne.symm h2), getD_set_ne _ _ _ (Ne.symm h1)]

lemma shiftStep_getD_untouched (v res : List Lane) (op : Nat × Nat) (i : Nat)
    (h1 : i ≠ op.1) (h2 : i ≠ op.2) :
    (shiftStep v res op).getD i Lane.dflt = res.getD i Lane.dflt := by
  unfold shiftStep
  split <;> rw [getD_set_ne _ _ _ (Ne.symm h2), getD_set_ne _ _ _ (Ne.symm h1)]

lemma foldl_swapStep_getD_untouched (v : List Lane) (i : Nat) :
    ∀ (ops : List (Nat × Nat)) (res : List Lane),
      (∀ op ∈ ops, i ≠ op.1 ∧ i ≠ op.2) →
      (ops.foldl (swapStep v) res).getD i Lane.dflt = res.getD i Lane.dflt := by
  intro ops
  induction ops with
  | nil => intro res _; rfl
  | cons op ops ih =>
    intro res hout
    rw [List.foldl_cons, ih _ (fun o ho => hout o (List.mem_cons_of_mem _ ho)),
      swapStep_getD_untouched v res op i (hout op (List.mem_cons_self _ _)).1
        (hout op (List.mem_cons_self _ _)).2]

lemma foldl_shiftStep_getD_untouched (v : List Lane) (i : Nat) :
    ∀ (ops : List (Nat × Nat)) (res : List Lane),
      (∀ op ∈ ops, i ≠ op.1 ∧ i ≠ op.2) →
      (ops.foldl (shiftStep v) res).getD i Lane.dflt = res.getD i Lane.dflt := by
  intro ops
  induction ops with
  | nil => intro res _; rfl
  | cons op ops ih =>
    intro res hout
    rw [List.foldl_cons, ih _ (fun o ho => hout o (List.mem_cons_of_mem _ ho)),
      shiftStep_getD_untouched v res op i (hout op (List.mem_cons_self _ _)).1
        (hout op (List.mem_cons_self _ _)).2]

/-- C10: both `swap` and `shift` return a vector of the input's length,
and every lane whose index appears in no operator pair is unchanged. -/
theorem claim_C10_frame (v : List Lane) (ops : List (Nat × Nat)) (i : Nat)
    (hrange : ∀ op ∈ ops, op.1 < v.length ∧ op.2 < v.length)
    (hout : ∀ op ∈ ops, i ≠ op.1 ∧ i ≠ op.2) :
    (LaneArray.swap v ops).length = v.length ∧
    (LaneArray.shift v ops).length = v.length ∧
    (LaneArray.swap v ops).getD i Lane.dflt = v.getD i Lane.dflt ∧
    (LaneArray.shift v ops).getD i Lane.dflt = v.getD i Lane.dflt :=
  ⟨foldl_swapStep_length v ops v, foldl_shiftStep_length v ops v,
   foldl_swapStep_getD_untouched v i ops v hout,
   foldl_shiftStep_getD_untouched v i ops v hout⟩

/-- Concrete three-lane vector used by the C10 witness. -/
def wframe : List Lane :=
  [{ key := 400, meta := 0 }, { key := 9, meta := 1 }, { key := 4, meta := 2 }]

/-- Witness for C10 at `v = wframe`, `ops = [(0, 2)]`, untouched lane 1. -/
theorem claim_C10_witness :
    (LaneArray.swap wframe [(0, 2)]).length = wframe.length ∧
    (LaneArray.shift wframe [(0, 2)]).length = wframe.length ∧
    (LaneArray.swap wframe [(0, 2)]).getD 1 Lane.dflt = wframe.getD 1 Lane.dflt ∧
    (LaneArray.shift wframe [(0, 2)]).getD 1 Lane.dflt = wframe.getD 1 Lane.dflt :=
  claim_C10_frame wframe [(0, 2)] 1 (by decide) (by decide)

/-! ### Stage order-independence -/

lemma opsDisjoint_symm {p q : Nat × Nat} (h : opsDisjoint p q) :
    opsDisjoint q p :=
  ⟨Ne.symm h.1, Ne.symm h.2.2.1, Ne.symm h.2.1, Ne.symm h.2.2.2⟩

lemma swapStep_comm (v : List Lane) {p q : Nat × Nat}
    (h : opsDisjoint p q) (z : List Lane) :
    swapStep v (swapStep v z p) q = swapStep v (swapStep v z q) p := by
  obtain ⟨h11, h12, h21, h22⟩ := h
  by_cases hp : (v.getD p.1 Lane.dflt).key ≤ (v.getD p.2 Lane.dflt).key <;>
    by_cases hq : (v.getD q.1 Lane.dflt).key ≤ (v.getD q.2 Lane.dflt).key <;>
    simp only [swapStep, hp, hq, if_true, if_false, ite_true, ite_false] <;>
    exact set4_comm _ _ _ _ _ h11 h12 h21 h22

lemma shiftStep_comm (v : List Lane) {p q : Nat × Nat}
    (h : opsDisjoint p q) (z : List Lane) :
    shiftStep v (shiftStep v z p) q = shiftStep v (shiftStep v z q) p := by
  obtain ⟨h11, h12, h21, h22⟩ := h
  by_cases hp : (v.getD p.1 Lane.dflt).key < PENALTY <;>
    by_cases hq : (v.getD q.1 Lane.dflt).key < PENALTY <;>
    simp only [shiftStep, hp, hq, if_true, if_false, ite_true, ite_false] <;>
    exact set4_comm _ _ _ _ _ h11 h12 h21 h22

/-- C8: for index-disjoint operator sets, applying the stage with `swap`
or with `shift` is independent of the order of the operators: every
reordering (permutation) of the stage's list produces the same vector,
because each operator reads only the pre-stage snapshot. -/
theorem claim_C8_stage_order_independent (v : List Lane)
    (l1 l2 : List (Nat × Nat)) (hdisj : l1.Pairwise opsDisjoint)
    (hperm : l1.Perm l2) :
    LaneArray.swap v l1 = LaneArray.swap v l2 ∧
    LaneArray.shift v l1 = LaneArray.shift v l2 := by
  have hcomm : ∀ x ∈ l1, ∀ y ∈ l1, x ≠ y → opsDisjoint x y :=
    fun x hx y hy hxy =>
      List.Pairwise.forall (fun a b hab => opsDisjoint_symm hab) hdisj hx hy hxy
  constructor
  · exact hperm.foldl_eq'
      (fun x hx y hy z => by
        by_cases hxy : x = y
        · rw [hxy]
        · exact swapStep_comm v (hcomm x hx y hy hxy) z) v
  · exact hperm.foldl_eq'
      (fun x hx y hy z => by
        by_cases hxy : x = y
        · rw [hxy]
        · exact shiftStep_comm v (hcomm x hx y hy hxy) z) v

/-- Concrete four-lane vector used by the C8 witness. -/
def wvec : List Lane :=
  [{ key := 7, meta := 0 }, { key := 300, meta := 1 },
   { key := 2, meta := 2 }, { key := 1, meta := 3 }]

/-- Witness for C8: a two-operator stage applied in both orders to a
concrete four-lane vector. -/
theorem claim_C8_witness :
    LaneArray.swap wvec [(0, 1), (2, 3)] = LaneArray.swap wvec [(2, 3), (0, 1)] ∧
    LaneArray.shift wvec [(0, 1), (2, 3)] = LaneArray.shift wvec [(2, 3), (0, 1)] :=
  claim_C8_stage_order_independent wvec [(0, 1), (2, 3)] [(2, 3), (0, 1)]
    (by decide) (by decide)

/-! ### Shift never creates valid lanes -/

/-- One shift step never increases the number of valid lanes, provided
the accumulated `res` still agrees with the snapshot `v` at the
operator's two indices. -/
lemma shiftStep_validCount_le (v res : List Lane) (op : Nat × Nat)
    (hlen : res.length = v.length)
    (hop1 : op.1 < v.length) (hop2 : op.2 < v.length)
    (hag1 : res.getD op.1 Lane.dflt = v.getD op.1 Lane.dflt)
    (hag2 : res.getD op.2 Lane.dflt = v.getD op.2 Lane.dflt) :
    validCount (shiftStep v res op) ≤ validCount res := by
  unfold shiftStep
  by_cases hc : (v.getD op.1 Lane.dflt).key < PENALTY
  · rw [if_pos hc, ← hag1, set_getD_self, ← hag2, set_getD_self]
  · rw [if_neg hc]
    have h1r : op.1 < res.length := by rw [hlen]; exact hop1
    by_cases he : op.1 = op.2
    · rw [he, List.set_set]
      have h2r : op.2 < res.length := by rw [hlen]; exact hop2
      unfold validCount
      rw [List.countP_set _ _ _ _ h2r]
      have hplc : decide (({ key := PENALTY, meta := PENALTY } : Lane).key < PENALTY) = false := by
        decide
      rw [hplc]
      simp only [if_false, Bool.false_eq_true]
      omega
    · have h2r : op.2 < (res.set op.1 (v.getD op.2 Lane.dflt)).length := by
        rw [List.length_set, hlen]; exact hop2
      unfold validCount
      rw [List.countP_set _ _ _ _ h2r, List.countP_set _ _ _ _ h1r]
      have ea : res[op.1] = v.getD op.1 Lane.dflt := by
        rw [← getD_eq_getElem res op.1 Lane.dflt h1r]; exact hag1
      have eb : (res.set op.1 (v.getD op.2 Lane.dflt))[op.2] = v.getD op.2 Lane.dflt := by
        rw [← getD_eq_getElem _ op.2 Lane.dflt h2r, getD_set_ne _ _ _ he]
        exact hag2
      rw [ea, eb]
      have hkey : decide ((v.getD op.1 Lane.dflt).key < PENALTY) = false :=
        decide_eq_false hc
      have hplc : decide (({ key := PENALTY, meta := PENALTY } : Lane).key < PENALTY) = false := by
        decide
      rw [hkey, hplc]
      simp only [if_false, Bool.false_eq_true]
      omega

/-- Folding a disjoint, in-range operator list with `shiftStep` never
increases the number of valid lanes of the accumulator, as long as the
accumulator agrees with the snapshot on every operator index. -/
lemma foldl_shiftStep_validCount_le (v : List Lane) :
    ∀ (ops : List (Nat × Nat)) (res : List Lane),
      res.length = v.length →
      ops.Pairwise opsDisjoint →
      (∀ op ∈ ops, op.1 < v.length ∧ op.2 < v.length) →
      (∀ op ∈ ops, res.getD op.1 Lane.dflt = v.getD op.1 Lane.dflt ∧
                   res.getD op.2 Lane.dflt = v.getD op.2 Lane.dflt) →
      validCount (ops.foldl (shiftStep v) res) ≤ validCount res := by
  intro ops
  induction ops with
  | nil => intro res _ _ _ _; exact Nat.le_refl _
  | cons op ops ih =>
    intro res hlen hpw hrange hagree
    have hop := hrange op (List.mem_cons_self _ _)
    have hag := hagree op (List.mem_cons_self _ _)
    have hdisj : ∀ o ∈ ops, opsDisjoint op o := (List.pairwise_cons.mp hpw).1
    have hpw' : ops.Pairwise opsDisjoint := (List.pairwise_cons.mp hpw).2
    have hlen' : (shiftStep v res op).length = v.length := by
      rw [shiftStep_length]; exact hlen
    have hagree' : ∀ o ∈ ops,
        (shiftStep v res op).getD o.1 Lane.dflt = v.getD o.1 Lane.dflt ∧
        (shiftStep v res op).getD o.2 Lane.dflt = v.getD o.2 Lane.dflt := by
      intro o ho
      have hd := hdisj o ho
      have hago := hagree o (List.mem_cons_of_mem _ ho)
      constructor
      · rw [shiftStep_getD_untouched v res op o.1 (Ne.symm hd.1) (Ne.symm hd.2.2.1)]
        exact hago.1
      · rw [shiftStep_getD_untouched v res op o.2 (Ne.symm hd.2.1) (Ne.symm hd.2.2.2)]
        exact hago.2
    calc validCount ((op :: ops).foldl (shiftStep v) res)
        = validCount (ops.foldl (shiftStep v) (shiftStep v res op)) := by
          rw [List.foldl_cons]
      _ ≤ validCount (shiftStep v res op) :=
          ih _ hlen' hpw' (fun o ho => hrange o (List.mem_cons_of_mem _ ho)) hagree'
      _ ≤ validCount res :=
          shiftStep_validCount_le v res op hlen hop.1 hop.2 hag.1 hag.2

/-- C9: for disjoint in-range operator sets, `shift` never increases the
number of lanes with `key < PENALTY`. -/
theorem claim_C9_shift_no_new_valid (v : List Lane) (ops : List (Nat × Nat))
    (hpw : ops.Pairwise opsDisjoint)
    (hrange : ∀ op ∈ ops, op.1 < v.length ∧ op.2 < v.length) :
    validCount (LaneArray.shift v ops) ≤ validCount v :=
  foldl_shiftStep_validCount_le v ops v rfl hpw hrange (fun _ _ => ⟨rfl, rfl⟩)

/-- Witness for C9: shifting a concrete vector with one penalized lane. -/
theorem claim_C9_witness :
    validCount (LaneArray.shift wframe [(0, 1), (2, 2)]) ≤ validCount wframe :=
  claim_C9_shift_no_new_valid wframe [(0, 1), (2, 2)] (by decide) (by decide)

/-! ### The verifier's classification -/

lemma sortedFrom_iff_chain (f : Lane → Nat) (prev : Nat) (l : List Lane) :
    sortedFrom f prev l = true ↔ List.Chain (· ≤ ·) prev (l.map f) := by
  induction l generalizing prev with
  | nil => simp [sortedFrom]
  | cons x l ih =>
    simp only [sortedFrom, List.map_cons, List.chain_cons]
    by_cases h : f x < prev
    · rw [if_pos h]
      simp only [Bool.false_eq_true, false_iff]
      intro hcon
      omega
    · rw [if_neg h, ih]
      constructor
      · intro hch
        exact ⟨by omega, hch⟩
      · intro hch
        exact hch.2

lemma chain_zero_iff (xs : List Nat) :
    List.Chain (· ≤ ·) 0 xs ↔ xs.Sorted (· ≤ ·) := by
  cases xs with
  | nil => simp
  | cons x l =>
    rw [List.chain_cons]
    constructor
    · intro h
      have hc : List.Chain' (· ≤ ·) (x :: l) := h.2
      exact List.chain'_iff_pairwise.mp hc
    · intro h
      have hp : List.Pairwise (· ≤ ·) (x :: l) := h
      have hc : List.Chain' (· ≤ ·) (x :: l) := List.chain'_iff_pairwise.mpr hp
      exact ⟨Nat.zero_le x, hc⟩

lemma is_sorted_key_iff (l : List Lane) :
    LaneArray.is_sorted_key l = true ↔ (l.map Lane.key).Sorted (· ≤ ·) := by
  rw [LaneArray.is_sorted_key, sortedFrom_iff_chain, chain_zero_iff]

lemma is_sorted_meta_iff (l : List Lane) :
    LaneArray.is_sorted_meta l = true ↔ (l.map Lane.meta).Sorted (· ≤ ·) := by
  rw [LaneArray.is_sorted_meta, sortedFrom_iff_chain, chain_zero_iff]

lemma trialErrs_fst (len : Nat) (f : List Lane → List Lane) (typ : LaneArrayType) :
    (trialErrs len f typ).1 = true
      ↔ ¬ ((f (LaneArray.new len typ)).map Lane.key).Sorted (· ≤ ·) := by
  rw [← is_sorted_key_iff]
  simp [trialErrs]

lemma trialErrs_snd (len : Nat) (f : List Lane → List Lane) (typ : LaneArrayType) :
    (trialErrs len f typ).2 = true
      ↔ ¬ ((f (LaneArray.new len typ)).map Lane.meta).Sorted (· ≤ ·) := by
  rw [← is_sorted_meta_iff]
  simp [trialErrs]

lemma typStep_eq (len : Nat) (f : List Lane → List Lane) (c : Nat × Nat)
    (typ : LaneArrayType) :
    typStep len f c typ
      = (c.1 + (if (trialErrs len f typ).1 = true then 1 else 0),
         c.2 + (if (trialErrs len f typ).2 = true then 1 else 0)) := by
  unfold typStep trialErrs
  cases h1 : LaneArray.is_sorted_key (f (LaneArray.new len typ)) <;>
    cases h2 : LaneArray.is_sorted_meta (f (LaneArray.new len typ)) <;>
    simp [h1, h2]

lemma maskStep_eq (len : Nat) (f : List Lane → List Lane) (c : Nat × Nat)
    (mask : Nat) :
    maskStep len f c mask
      = (c.1 + (([LaneArrayType.Simple mask, LaneArrayType.Hidden mask].map
            (trialErrs len f)).countP (fun t => t.1)),
         c.2 + (([LaneArrayType.Simple mask, LaneArrayType.Hidden mask].map
            (trialErrs len f)).countP (fun t => t.2))) := by
  have hfold : maskStep len f c mask
      = typStep len f (typStep len f c (LaneArrayType.Simple mask))
          (LaneArrayType.Hidden mask) := rfl
  rw [hfold, typStep_eq, typStep_eq]
  simp only [List.map_cons, List.map_nil, List.countP_cons, List.countP_nil,
    Prod.mk.injEq]
  constructor <;> (cases hS : (trialErrs len f (LaneArrayType.Simple mask)) <;>
    cases hH : (trialErrs len f (LaneArrayType.Hidden mask)) <;> simp_all <;> omega)

lemma foldl_maskStep_eq (len : Nat) (f : List Lane → List Lane) :
    ∀ (ms : List Nat) (c : Nat × Nat),
      ms.foldl (maskStep len f) c
        = (c.1 + ((ms.flatMap (fun mask =>
              [LaneArrayType.Simple mask, LaneArrayType.Hidden mask].map
                (trialErrs len f))).countP (fun t => t.1)),
           c.2 + ((ms.flatMap (fun mask =>
              [LaneArrayType.Simple mask, LaneArrayType.Hidden mask].map
                (trialErrs len f))).countP (fun t => t.2))) := by
  intro ms
  induction ms with
  | nil => intro c; simp
  | cons m ms ih =>
    intro c
    rw [List.foldl_cons, ih, maskStep_eq, List.flatMap_cons, List.countP_append,
      List.countP_append]
    simp only [Prod.mk.injEq]
    omega

/-- The error counters are exactly the independent tallies of
key-predicate and meta-predicate failures over the full trial list. -/
lemma errCounts_eq_countP (len : Nat) (f : List Lane → List Lane) :
    errCounts len f = ((trials len f).countP (fun t => t.1),
                       (trials len f).countP (fun t => t.2)) := by
  rw [errCounts, trials, foldl_maskStep_eq]
  simp

lemma keyFail_pos_iff (len : Nat) (f : List Lane → List Lane) :
    0 < (trials len f).countP (fun t => t.1)
      ↔ ∃ mask < 2 ^ len,
          ∃ typ ∈ [LaneArrayType.Simple mask, LaneArrayType.Hidden mask],
            ¬ ((f (LaneArray.new len typ)).map Lane.key).Sorted (· ≤ ·) := by
  rw [List.countP_pos_iff]
  constructor
  · rintro ⟨t, ht, hp⟩
    rw [trials, List.mem_flatMap] at ht
    obtain ⟨mask, hmask, htm⟩ := ht
    rw [List.mem_map] at htm
    obtain ⟨typ, htyp, rfl⟩ := htm
    exact ⟨mask, List.mem_range.mp hmask, typ, htyp, (trialErrs_fst len f typ).mp hp⟩
  · rintro ⟨mask, hmask, typ, htyp, hns⟩
    refine ⟨trialErrs len f typ, ?_, (trialErrs_fst len f typ).mpr hns⟩
    rw [trials, List.mem_flatMap]
    exact ⟨mask, List.mem_range.mpr hmask, List.mem_map_of_mem _ htyp⟩

lemma metaFail_pos_iff (len : Nat) (f : List Lane → List Lane) :
    0 < (trials len f).countP (fun t => t.2)
      ↔ ∃ mask < 2 ^ len,
          ∃ typ ∈ [LaneArrayType.Simple mask, LaneArrayType.Hidden mask],
            ¬ ((f (LaneArray.new len typ)).map Lane.meta).Sorted (· ≤ ·) := by
  rw [List.countP_pos_iff]
  constructor
  · rintro ⟨t, ht, hp⟩
    rw [trials, List.mem_flatMap] at ht
    obtain ⟨mask, hmask, htm⟩ := ht
    rw [List.mem_map] at htm
    obtain ⟨typ, htyp, rfl⟩ := htm
    exact ⟨mask, List.mem_range.mp hmask, typ, htyp, (trialErrs_snd len f typ).mp hp⟩
  · rintro ⟨mask, hmask, typ, htyp, hns⟩
    refine ⟨trialErrs len f typ, ?_, (trialErrs_snd len f typ).mpr hns⟩
    rw [trials, List.mem_flatMap]
    exact ⟨mask, List.mem_range.mpr hmask, List.mem_map_of_mem _ htyp⟩

/-- C1: `test_sort` classifies by priority: "sorting error" iff some
trial (over all masks and both addressing modes) has a key sequence that
is not non-decreasing; else "order not preserved" iff some trial has a
meta sequence that is not non-decreasing; else "all tests passed".  The
key and meta failure counts are tallied independently over the same
trial list (one trial can contribute to both). -/
theorem claim_C1_classification (len : Nat) (f : List Lane → List Lane) :
    (test_sort len f = .SortingError ↔
      ∃ mask < 2 ^ len,
        ∃ typ ∈ [LaneArrayType.Simple mask, LaneArrayType.Hidden mask],
          ¬ ((f (LaneArray.new len typ)).map Lane.key).Sorted (· ≤ ·)) ∧
    (test_sort len f = .OrderNotPreserved ↔
      (¬ ∃ mask < 2 ^ len,
        ∃ typ ∈ [LaneArrayType.Simple mask, LaneArrayType.Hidden mask],
          ¬ ((f (LaneArray.new len typ)).map Lane.key).Sorted (· ≤ ·)) ∧
      (∃ mask < 2 ^ len,
        ∃ typ ∈ [LaneArrayType.Simple mask, LaneArrayType.Hidden mask],
          ¬ ((f (LaneArray.new len typ)).map Lane.meta).Sorted (· ≤ ·))) ∧
    (test_sort len f = .AllPassed ↔
      (¬ ∃ mask < 2 ^ len,
        ∃ typ ∈ [LaneArrayType.Simple mask, LaneArrayType.Hidden mask],
          ¬ ((f (LaneArray.new len typ)).map Lane.key).Sorted (· ≤ ·)) ∧
      (¬ ∃ mask < 2 ^ len,
        ∃ typ ∈ [LaneArrayType.Simple mask, LaneArrayType.Hidden mask],
          ¬ ((f (LaneArray.new len typ)).map Lane.meta).Sorted (· ≤ ·))) ∧
    errCounts len f = ((trials len f).countP (fun t => t.1),
                       (trials len f).countP (fun t => t.2)) := by
  have hE := errCounts_eq_countP len f
  have hts : test_sort len f =
      (if 0 < (trials len f).countP (fun t => t.1) then SortResult.SortingError
       else if 0 < (trials len f).countP (fun t => t.2) then SortResult.OrderNotPreserved
       else SortResult.AllPassed) := by
    simp only [test_sort, hE, gt_iff_lt]
  rw [hts]
  have hK := keyFail_pos_iff len f
  have hM := metaFail_pos_iff len f
  by_cases h1 : 0 < (trials len f).countP (fun t => t.1)
  · rw [if_pos h1]
    refine ⟨iff_of_true rfl (hK.mp h1), ?_, ?_, hE⟩
    · exact iff_of_false (fun hx => SortResult.noConfusion hx)
        (fun hx => hx.1 (hK.mp h1))
    · exact iff_of_false (fun hx => SortResult.noConfusion hx)
        (fun hx => hx.1 (hK.mp h1))
  · rw [if_neg h1]
    by_cases h2 : 0 < (trials len f).countP (fun t => t.2)
    · rw [if_pos h2]
      refine ⟨?_, ?_, ?_, hE⟩
      · exact iff_of_false (fun hx => SortResult.noConfusion hx)
          (fun hx => h1 (hK.mpr hx))
      · exact iff_of_true rfl ⟨fun hx => h1 (hK.mpr hx), hM.mp h2⟩
      · exact iff_of_false (fun hx => SortResult.noConfusion hx)
          (fun hx => hx.2 (hM.mp h2))
    · rw [if_neg h2]
      refine ⟨?_, ?_, ?_, hE⟩
      · exact iff_of_false (fun hx => SortResult.noConfusion hx)
          (fun hx => h1 (hK.mpr hx))
      · exact iff_of_false (fun hx => SortResult.noConfusion hx)
          (fun hx => h2 (hM.mpr hx.2))
      · exact iff_of_true rfl ⟨fun hx => h1 (hK.mpr hx), fun hx => h2 (hM.mpr hx)⟩

/-- C7: the verifier evaluates exactly `2 * 2 ^ N` trials (every mask
under both addressing modes), and the final tallies are the counts over
the full trial list — no failure aborts the enumeration, every trial
contributes. -/
theorem claim_C7_exhaustive (len : Nat) (f : List Lane → List Lane) :
    (trials len f).length = 2 * 2 ^ len ∧
    errCounts len f = ((trials len f).countP (fun t => t.1),
                       (trials len f).countP (fun t => t.2)) := by
  refine ⟨?_, errCounts_eq_countP len f⟩
  rw [trials, List.length_flatMap]
  have hrep : (List.range (2 ^ len)).map (List.length ∘ fun mask =>
      [LaneArrayType.Simple mask, LaneArrayType.Hidden mask].map
        (trialErrs len f)) = List.replicate (2 ^ len) 2 := by
    refine List.eq_replicate_iff.mpr ⟨by simp, ?_⟩
    intro b hb
    rw [List.mem_map] at hb
    obtain ⟨mask, _, rfl⟩ := hb
    rfl
  rw [hrep, List.sum_replicate, smul_eq_mul, Nat.mul_comm]
